import Mathlib

/-!
# Verification of dir2module (src/dir2module.py)

A shallow embedding of the dir2module program.  Strings are modelled as
`List Char` (Python `str`), Python sets as `Finset`, Python `dict` as an
insertion-ordered association list with overwrite-on-duplicate-key, and
Python exceptions as an `Except` result carrying the exception class.
Observable side effects (printing to standard output, opening a package
file, writing a file) are collected in an explicit trace.

The external collaborators (the dnf/hawkey filename matcher, the rpm
header reader, the Modulemd serializer) are not part of the repository;
they are modelled at their interfaces: the matcher from the
specification of the package-naming grammar, the header reader as an
abstract per-package record, and the serializer as a function parameter.
-/

deriving instance DecidableEq for Except

namespace Dir2Module

/-- Python exception classes that dir2module raises or that escape it.
`valueError` and `runtimeError` are raised by the program itself and
caught by its top-level handler; `osError` models the exception raised
by `open` on an unreadable file, `typeError` the one raised by the
Modulemd binding when an artifact is `None`, and `overflowError` the one
raised when the version does not fit the stream's unsigned 64-bit
version field - none of those three is caught by the handler. -/
inductive PyErr where
  | valueError (msg : List Char)
  | runtimeError (msg : List Char)
  | osError (msg : List Char)
  | typeError (msg : List Char)
  | overflowError (msg : List Char)
  deriving DecidableEq

/-- Observable side effects of a run: a line printed to standard output,
a package file opened for header inspection, a file written. -/
inductive Effect where
  | printOut (line : List Char)
  | readPackage (path : List Char)
  | writeFile (fname content : List Char)
  deriving DecidableEq

/-- Python `str.split` with a single-character separator: splits at every
occurrence, keeping empty fields, and yields `[[]]` on the empty string. -/
def splitOnChar (sep : Char) : List Char → List (List Char)
  | [] => [[]]
  | c :: rest =>
    match splitOnChar sep rest with
    | [] => [[]]
    | g :: gs => if c = sep then [] :: g :: gs else (c :: g) :: gs

/-- Split at the last occurrence of `sep`: returns the part before and the
part after that occurrence, or `none` when `sep` does not occur. -/
def rsplitOnce (sep : Char) (s : List Char) : Option (List Char × List Char) :=
  match (s.reverse).dropWhile (· ≠ sep) with
  | [] => none
  | _ :: before => some (before.reverse, ((s.reverse).takeWhile (· ≠ sep)).reverse)

/-- Split at the first occurrence of `sep`, or `none` when absent. -/
def lsplitOnce (sep : Char) (s : List Char) : Option (List Char × List Char) :=
  match s.dropWhile (· ≠ sep) with
  | [] => none
  | _ :: after => some (s.takeWhile (· ≠ sep), after)

/-- `os.path.basename`: the part of the path after the last slash. -/
def basename (path : List Char) : List Char :=
  ((path.reverse).takeWhile (· ≠ '/')).reverse

/-- Python `str.endswith`. -/
def endsWithList (suffix s : List Char) : Bool :=
  decide ((s.reverse).take suffix.length = suffix.reverse)

/-- Python `str.strip(chars)`: removes any of the given characters from
both ends of the string. -/
def pyStripChars (chars s : List Char) : List Char :=
  (((s.dropWhile (chars.contains ·)).reverse).dropWhile (chars.contains ·)).reverse

/-- Scanner for the characters of a Python integer literal after its first
digit: digits, with single underscores allowed between digits. -/
def pyDigitsRest : List Char → Bool
  | [] => true
  | '_' :: [] => false
  | '_' :: d :: rest => d.isDigit && pyDigitsRest (d :: rest)
  | c :: rest => c.isDigit && pyDigitsRest rest

/-- A nonempty digit sequence with single underscores between digits, the
digit-string grammar accepted by Python `int(...)`. -/
def pyDigitsOk : List Char → Bool
  | [] => false
  | c :: rest => c.isDigit && pyDigitsRest rest

/-- Numeric value of a digit string (underscores already removed). -/
def digitsVal (l : List Char) : Nat :=
  l.foldl (fun n c => 10 * n + (c.toNat - 48)) 0

/-- Modelled from the spec: Python builtin `int(str)` (external to the
repository), used by `parse_nsvca` on the version field.  Accepts optional
surrounding whitespace, an optional sign, and a nonempty digit sequence
with single underscores between digits. -/
def pyInt? (s : List Char) : Option Int :=
  let t := (((s.dropWhile Char.isWhitespace).reverse).dropWhile Char.isWhitespace).reverse
  match t with
  | '+' :: rest => if pyDigitsOk rest then some (digitsVal (rest.filter (· ≠ '_'))) else none
  | '-' :: rest => if pyDigitsOk rest then some (-(digitsVal (rest.filter (· ≠ '_')) : Int)) else none
  | _ => if pyDigitsOk t then some ((digitsVal (t.filter (· ≠ '_')) : Int)) else none

/-- A package identity tuple: name, optional epoch, version, release,
architecture.  The epoch is `none` when absent from the filename. -/
structure Nevra where
  name : List Char
  epoch : Option Nat
  version : List Char
  release : List Char
  arch : List Char
  deriving DecidableEq

/-- Epoch handling inside the version slot of the naming grammar: no colon
means no epoch; with a colon, the part before it must be a nonempty digit
sequence and the remainder must be colon-free. -/
def splitEpoch (ev : List Char) : Option (Option Nat × List Char) :=
  match lsplitOnce ':' ev with
  | none => some (none, ev)
  | some (e, v) =>
    if e ≠ [] ∧ e.all Char.isDigit ∧ ':' ∉ v then some (some (digitsVal e), v) else none

/-- Modelled from the spec: the candidate matcher for the standard
package-naming grammar `NAME-[EPOCH:]VERSION-RELEASE.ARCH` (the external
dnf/hawkey matcher invoked by the source with the single NEVRA form is not
part of this repository).  The architecture is the part after the last dot
of the whole string and may not contain the hyphen field separator; the
release lies between the last hyphen and that dot; the version between the
second-to-last and last hyphens, optionally prefixed by a numeric epoch
and a colon; the name is everything before and may itself contain hyphens.
All five components must be nonempty. -/
def parseNevra (s : List Char) : Option Nevra :=
  match rsplitOnce '.' s with
  | none => none
  | some (rest1, arch) =>
    if arch = [] ∨ arch.contains '-' then none
    else
      match rsplitOnce '-' rest1 with
      | none => none
      | some (rest2, release) =>
        if release = [] then none
        else
          match rsplitOnce '-' rest2 with
          | none => none
          | some (nm, evslot) =>
            if nm = [] ∨ evslot = [] then none
            else
              match splitEpoch evslot with
              | none => none
              | some (ep, ver) =>
                if ver = [] then none else some ⟨nm, ep, ver, release, arch⟩

/-- The list of candidate decompositions returned by the matcher for the
single NEVRA form: at most one. -/
def nevraPossibilities (s : List Char) : List Nevra :=
  (parseNevra s).toList

/-- The suffix required of package filenames. -/
def rpmSuffix : List Char := ".rpm".data

/-- Message of the ValueError raised by `package2nevra` (apostrophes of the
source message elided). -/
def rpmErrMsg (path : List Char) : List Char :=
  "File name does not end with .rpm: ".data ++ path

/-- Rendering of a candidate decomposition as done by `package2nevra`:
`{N}-{E}:{V}-{R}.{A}` with `nevra.epoch or 0` for the epoch. -/
def renderNevra (nevra : Nevra) : List Char :=
  nevra.name ++ ('-' :: (Nat.repr (nevra.epoch.getD 0)).data) ++ (':' :: nevra.version)
    ++ ('-' :: nevra.release) ++ ('.' :: nevra.arch)

/-- `package2nevra` from the source: take the basename, raise ValueError
unless it ends with the package extension, feed the full basename
(extension included) to the matcher, and return the rendering of the first
candidate - or fall off the loop and return `None` (`Option.none` here)
when the matcher yields no candidate. -/
def package2nevra (path : List Char) : Except PyErr (Option (List Char)) :=
  let file_name := basename path
  if endsWithList rpmSuffix file_name then
    match nevraPossibilities file_name with
    | [] => .ok none
    | nevra :: _ => .ok (some (renderNevra nevra))
  else
    .error (.valueError (rpmErrMsg path))

/-- `package_nevras` from the source: the set comprehension
`{package2nevra(package) for package in packages}`, evaluated left to
right, propagating the first exception. -/
def package_nevras : List (List Char) → Except PyErr (Finset (Option (List Char)))
  | [] => .ok ∅
  | p :: rest =>
    match package2nevra p, package_nevras rest with
    | .error e, _ => .error e
    | .ok _, .error e => .error e
    | .ok n, .ok s => .ok (insert n s)

/-- `package_names` from the source: the set of names over all candidate
decompositions of `basename(package.strip(".rpm"))` for each package.
Note the source uses Python `str.strip`, which removes any of the
characters `.`, `r`, `p`, `m` from both ends of the whole path. -/
def package_names (packages : List (List Char)) : Finset (List Char) :=
  (packages.flatMap (fun package =>
    (nevraPossibilities (basename (pyStripChars rpmSuffix package))).map Nevra.name)).toFinset

/-- A package file as seen through the external rpm header reader: its
path, whether it can be opened and parsed, and the two header fields the
program reads (`license`, truthiness of `modularitylabel`). -/
structure PkgFile where
  path : List Char
  readable : Bool
  license : List Char
  modularitylabel : Bool
  deriving DecidableEq

/-- Message of the OSError raised by `open` on an unreadable file. -/
def openErrMsg (path : List Char) : List Char :=
  "No such file or directory: ".data ++ path

/-- `package_license` via `package_header`: opening the package file is an
observable effect; an unreadable file raises OSError. -/
def package_license (p : PkgFile) : List Effect × Except PyErr (List Char) :=
  ([Effect.readPackage p.path],
    if p.readable then .ok p.license else .error (.osError (openErrMsg p.path)))

/-- The set comprehension `{package_license(package) for package in
packages}` from `main`: reads every package left to right, stops at the
first unreadable one, and collects the licenses into a set. -/
def collectLicensesT : List PkgFile → List Effect × Except PyErr (Finset (List Char))
  | [] => ([], .ok ∅)
  | p :: rest =>
    if p.readable then
      match collectLicensesT rest with
      | (es, .ok s) => (Effect.readPackage p.path :: es, .ok (insert p.license s))
      | (es, .error e) => (Effect.readPackage p.path :: es, .error e)
    else ([Effect.readPackage p.path], .error (.osError (openErrMsg p.path)))

/-- The line printed for a package without the modularity label: prefixed
with `ERROR: ` when `--force` is given and `WARNING: ` otherwise, exactly
as in the source. -/
def warnLine (force : Bool) (path : List Char) : List Char :=
  (if force then "ERROR: ".data else "WARNING: ".data)
    ++ "RPM does not have `modularitylabel` header set: ".data ++ path

/-- Message of the RuntimeError raised when packages lack the label and
`--force` is absent. -/
def forceMsg : List Char :=
  ("All packages need to contain the `modularitylabel` header. "
    ++ "To suppress this constraint, use `--force` parameter").data

/-- The modularity-label loop of `main` (lines 238-244): for each package,
read its header (an effect), and when the label is missing record the
package in `missing_labels` and print a report line.  An unreadable
package raises OSError on the spot. -/
def modularityLoopT (force : Bool) : List PkgFile → List Effect × Except PyErr (List PkgFile)
  | [] => ([], .ok [])
  | p :: rest =>
    if p.readable then
      if p.modularitylabel then
        let r := modularityLoopT force rest
        (Effect.readPackage p.path :: r.1, r.2)
      else
        let r := modularityLoopT force rest
        (Effect.readPackage p.path :: Effect.printOut (warnLine force p.path) :: r.1,
          match r.2 with
          | .ok miss => .ok (p :: miss)
          | .error e => .error e)
    else ([Effect.readPackage p.path], .error (.osError (openErrMsg p.path)))

/-- Message of the ValueError raised by `parse_nsvca` on a wrong number of
colon-separated fields. -/
def nsvcaFormatMsg : List Char := "N:S:V:C:A in unexpected format".data

/-- Message of the ValueError raised by Python `int()` on a non-integer
version field. -/
def intErrMsg (s : List Char) : List Char :=
  "invalid literal for int() with base 10: ".data ++ s

/-- `parse_nsvca` from the source: split on colons, require exactly five
fields, convert the third to an integer. -/
def parse_nsvca (nsvca : List Char) :
    Except PyErr (List Char × List Char × Int × List Char × List Char) :=
  let split := splitOnChar ':' nsvca
  if split.length = 5 then
    match pyInt? (split.getD 2 []) with
    | some v => .ok (split.getD 0 [], split.getD 1 [], v, split.getD 3 [], split.getD 4 [])
    | none => .error (.valueError (intErrMsg (split.getD 2 [])))
  else .error (.valueError nsvcaFormatMsg)

/-- Message of the ValueError raised by `dict(...)` on an update-sequence
element that is not a pair. -/
def dictLenMsg (n : Nat) : List Char :=
  "dictionary update sequence element has length ".data ++ (Nat.repr n).data
    ++ "; 2 is required".data

/-- Python `dict` update: a duplicate key silently overwrites the earlier
value, keeping the key at its original position. -/
def dictUpdate (d : List (List Char × List Char)) (k v : List Char) :
    List (List Char × List Char) :=
  if d.any (fun q => q.1 = k) then d.map (fun q => if q.1 = k then (k, v) else q)
  else d ++ [(k, v)]

/-- Lookup in the association-list model of a Python dict. -/
def dictGet? (d : List (List Char × List Char)) (k : List Char) : Option (List Char) :=
  (d.find? (fun q => q.1 = k)).map (fun q => q.2)

/-- `dict(listOfSplits)`: iterate the already-computed split results,
raising ValueError at the first element that is not a pair. -/
def buildDict (acc : List (List Char × List Char)) :
    List (List (List Char)) → Except PyErr (List (List Char × List Char))
  | [] => .ok acc
  | item :: rest =>
    match item with
    | [k, v] => buildDict (dictUpdate acc k v) rest
    | _ => .error (.valueError (dictLenMsg item.length))

/-- `parse_dependencies` from the source:
`dict([dep.split(":") for dep in deps])`, with `None` mapping to the empty
dict. -/
def parse_dependencies (deps : Option (List (List Char))) :
    Except PyErr (List (List Char × List Char)) :=
  match deps with
  | none => .ok []
  | some l => buildDict [] (l.map (fun dep => splitOnChar ':' dep))

/-- The `Module` object of the source: the fields stored by `__init__`. -/
structure Module where
  name : List Char
  stream : List Char
  version : Int
  context : List Char
  arch : List Char
  summary : List Char
  description : List Char
  module_license : List Char
  licenses : Finset (List Char)
  packages : List (List Char)
  requires : List (List Char × List Char)
  deriving DecidableEq

/-- `Module.filename`: `{N}:{S}:{V}:{C}:{A}.modulemd.yaml`. -/
def Module.filename (m : Module) : List Char :=
  m.name ++ (':' :: m.stream) ++ (':' :: (toString m.version).data) ++ (':' :: m.context)
    ++ (':' :: m.arch) ++ ".modulemd.yaml".data

/-- The object graph handed to the external Modulemd serializer by
`Module.dumps`: stream coordinates, summary/description, module license,
content licenses, artifact identities, runtime dependencies. -/
structure ModuleDoc where
  name : List Char
  stream : List Char
  version : Int
  context : List Char
  arch : List Char
  summary : List Char
  description : List Char
  module_license : List Char
  licenses : Finset (List Char)
  artifacts : Finset (Option (List Char))
  dependencies : List (List Char × List Char)
  deriving DecidableEq

/-- Message of the OverflowError raised by `set_version` when the version
does not fit the unsigned 64-bit version field. -/
def overflowErrMsg : List Char := "Value out of range for guint64 version".data

/-- Message of the TypeError raised by `add_rpm_artifact` on a `None`
artifact. -/
def typeErrMsg : List Char := "Argument does not allow None as a value".data

/-- `Module.dumps`: build the document object in source order.  Modelled
from the spec for the external Modulemd stream object: `set_version`
(line 56, before the artifact loop) rejects a version outside the
unsigned 64-bit range with OverflowError - the spec's SchemaError example
of a negative version, which must be surfaced, not swallowed; then the
artifact set is computed with `package_nevras` (whose ValueError
propagates); then `add_rpm_artifact` rejects a `None` artifact (the
silent result of an undecomposable filename) with TypeError.  The final
yaml rendering of a well-formed document is the external serializer,
abstracted by the caller. -/
def Module.dumps (m : Module) : Except PyErr ModuleDoc :=
  if m.version < 0 ∨ 18446744073709551616 ≤ m.version then
    .error (.overflowError overflowErrMsg)
  else
    match package_nevras m.packages with
    | .error e => .error e
    | .ok artifacts =>
      if none ∈ artifacts then .error (.typeError typeErrMsg)
      else
        .ok ⟨m.name, m.stream, m.version, m.context, m.arch, m.summary, m.description,
          m.module_license, m.licenses, artifacts, m.requires⟩

/-- `Module.dump`: write the serialized document into the file named by
`Module.filename`.  Present in the source but never called by `main`. -/
def Module.dump (serialize : ModuleDoc → List Char) (m : Module) :
    List Effect × Except PyErr Unit :=
  match m.dumps with
  | .error e => ([], .error e)
  | .ok doc => ([Effect.writeFile m.filename (serialize doc)], .ok ())

/-- The command-line inputs of `main` after argparse (argparse itself is
an excluded collaborator): the N:S:V:C:A string, summary, optional
description, module license (argparse default `MIT`), optional dependency
arguments, and the `--force` flag. -/
structure Args where
  nsvca : List Char
  summary : List Char
  description : Option (List Char)
  license : List Char
  requires : Option (List (List Char))
  force : Bool

/-- The default description `main` builds with `parser.prog`. -/
def defaultDescription : List Char :=
  "This module has been generated using dir2module tool".data

/-- `args.description or default`: Python `or` also replaces an empty
string. -/
def descriptionOf (d : Option (List Char)) : List Char :=
  match d with
  | some s => if s = [] then defaultDescription else s
  | none => defaultDescription

/-- The tail of `main` after the argument-parsing steps succeeded: read
all licenses, run the modularity-label loop, raise RuntimeError when
labels are missing and `--force` is absent, build the `Module`, serialize
it and print the result.  Returns the effect trace and the outcome. -/
def runAfterParse (serialize : ModuleDoc → List Char) (args : Args)
    (packages : List PkgFile) (name stream : List Char) (version : Int)
    (context arch : List Char) (requires : List (List Char × List Char)) :
    List Effect × Except PyErr Unit :=
  match collectLicensesT packages with
  | (es1, .error e) => (es1, .error e)
  | (es1, .ok licenses) =>
    match modularityLoopT args.force packages with
    | (es2, .error e) => (es1 ++ es2, .error e)
    | (es2, .ok missing) =>
      if missing ≠ [] ∧ args.force = false then
        (es1 ++ es2, .error (.runtimeError forceMsg))
      else
        match (Module.mk name stream version context arch args.summary
          (descriptionOf args.description) args.license licenses
          (packages.map (fun p => p.path)) requires).dumps with
        | .error e => (es1 ++ es2, .error e)
        | .ok doc => (es1 ++ es2 ++ [Effect.printOut (serialize doc)], .ok ())

/-- `main` from the source, over a given resolved package list (directory
traversal and pkglist reading are excluded collaborators): parse the
N:S:V:C:A argument, parse the dependency arguments, then proceed to the
package-inspecting tail.  No package file is touched before both parses
succeed. -/
def runMain (serialize : ModuleDoc → List Char) (args : Args) (packages : List PkgFile) :
    List Effect × Except PyErr Unit :=
  match parse_nsvca args.nsvca with
  | .error e => ([], .error e)
  | .ok (name, stream, version, context, arch) =>
    match parse_dependencies args.requires with
    | .error e => ([], .error e)
    | .ok requires =>
      runAfterParse serialize args packages name stream version context arch requires

/-- The lines printed to standard output in a trace. -/
def printedLines : List Effect → List (List Char)
  | [] => []
  | Effect.printOut l :: rest => l :: printedLines rest
  | _ :: rest => printedLines rest

/-- The effect trace of the modularity-label loop when every package is
readable: one header read per package, plus one report line per package
missing the label. -/
def mlTrace (force : Bool) (pkgs : List PkgFile) : List Effect :=
  pkgs.flatMap (fun p =>
    if p.modularitylabel then [Effect.readPackage p.path]
    else [Effect.readPackage p.path, Effect.printOut (warnLine force p.path)])

/-- The outcome component of the license set comprehension, without the
effect trace (used to reason about aggregation). -/
def licExcept : List PkgFile → Except PyErr (Finset (List Char))
  | [] => .ok ∅
  | p :: rest =>
    match (if p.readable then Except.ok p.license
      else Except.error (PyErr.osError (openErrMsg p.path)) : Except PyErr (List Char)),
      licExcept rest with
    | .error e, _ => .error e
    | .ok _, .error e => .error e
    | .ok c, .ok s => .ok (insert c s)

/-- Fixture: a readable package carrying the modularity label. -/
def pkgLabeled : PkgFile := ⟨"pkga-1.0-1.x86_64.rpm".data, true, "GPL".data, true⟩

/-- Fixture: a readable package missing the modularity label. -/
def pkgUnlabeled : PkgFile := ⟨"pkgb-2.0-1.x86_64.rpm".data, true, "MIT".data, false⟩

/-- Fixture: a well-formed argument vector without `--force`. -/
def argsDemo : Args :=
  ⟨"mymod:main:10:ctx:x86_64".data, "sum".data, none, "MIT".data,
    some [("platform:el9".data)], false⟩

/-- Fixture: the same argument vector with `--force`. -/
def argsDemoForce : Args :=
  ⟨"mymod:main:10:ctx:x86_64".data, "sum".data, none, "MIT".data,
    some [("platform:el9".data)], true⟩

/-- Fixture: an argument vector whose N:S:V:C:A string has two fields. -/
def argsBadNsvca : Args := ⟨"a:b".data, "sum".data, none, "MIT".data, none, false⟩

/-! ## Helper lemmas -/

theorem takeWhile_append_cons {α : Type} (p : α → Bool) (l1 l2 : List α) (c : α)
    (h : ∀ x ∈ l1, p x = true) (hc : p c = false) :
    (l1 ++ c :: l2).takeWhile p = l1 := by
  induction l1 with
  | nil => simp [List.takeWhile_cons, hc]
  | cons x xs ih =>
    have hx := h x (List.mem_cons_self x xs)
    simp only [List.cons_append, List.takeWhile_cons, hx, if_true]
    rw [ih (fun y hy => h y (List.mem_cons_of_mem x hy))]

theorem dropWhile_append_cons {α : Type} (p : α → Bool) (l1 l2 : List α) (c : α)
    (h : ∀ x ∈ l1, p x = true) (hc : p c = false) :
    (l1 ++ c :: l2).dropWhile p = c :: l2 := by
  induction l1 with
  | nil => simp [List.dropWhile_cons, hc]
  | cons x xs ih =>
    have hx := h x (List.mem_cons_self x xs)
    simp only [List.cons_append, List.dropWhile_cons, hx, if_true]
    exact ih (fun y hy => h y (List.mem_cons_of_mem x hy))

theorem dropWhile_eq_nil_of_all {α : Type} (p : α → Bool) (l : List α)
    (h : ∀ x ∈ l, p x = true) : l.dropWhile p = [] := by
  induction l with
  | nil => rfl
  | cons x xs ih =>
    have hx := h x (List.mem_cons_self x xs)
    simp only [List.dropWhile_cons, hx, if_true]
    exact ih (fun y hy => h y (List.mem_cons_of_mem x hy))

theorem rsplitOnce_of_not_mem (sep : Char) (s : List Char) (h : sep ∉ s) :
    rsplitOnce sep s = none := by
  unfold rsplitOnce
  rw [dropWhile_eq_nil_of_all _ _ (fun x hx => by
    simp only [decide_eq_true_eq]
    intro heq
    exact h (heq ▸ (List.mem_reverse.mp hx)))]

theorem rsplitOnce_append (sep : Char) (a b : List Char) (h : sep ∉ b) :
    rsplitOnce sep (a ++ sep :: b) = some (a, b) := by
  unfold rsplitOnce
  have hrev : (a ++ sep :: b).reverse = b.reverse ++ sep :: a.reverse := by simp
  have hall : ∀ x ∈ b.reverse, (decide (x ≠ sep)) = true := by
    intro x hx
    simp only [decide_eq_true_eq]
    intro heq
    exact h (heq ▸ (List.mem_reverse.mp hx))
  have hsep : (decide (sep ≠ sep)) = false := by simp
  rw [hrev, dropWhile_append_cons _ _ _ _ hall hsep, takeWhile_append_cons _ _ _ _ hall hsep]
  simp

theorem lsplitOnce_of_not_mem (sep : Char) (s : List Char) (h : sep ∉ s) :
    lsplitOnce sep s = none := by
  unfold lsplitOnce
  rw [dropWhile_eq_nil_of_all _ _ (fun x hx => by
    simp only [decide_eq_true_eq]
    intro heq
    exact h (heq ▸ hx))]

theorem splitEpoch_of_no_colon (ev : List Char) (h : ':' ∉ ev) :
    splitEpoch ev = some (none, ev) := by
  unfold splitEpoch
  rw [lsplitOnce_of_not_mem _ _ h]

theorem splitOnChar_of_not_mem (sep : Char) (a : List Char) (h : sep ∉ a) :
    splitOnChar sep a = [a] := by
  induction a with
  | nil => rfl
  | cons c rest ih =>
    have hc : ¬(c = sep) := fun e => h (e ▸ List.mem_cons_self c rest)
    rw [splitOnChar, ih (fun hy => h (List.mem_cons_of_mem c hy))]
    simp [hc]

theorem splitOnChar_pair (sep : Char) (a b : List Char) (ha : sep ∉ a) (hb : sep ∉ b) :
    splitOnChar sep (a ++ sep :: b) = [a, b] := by
  induction a with
  | nil =>
    rw [List.nil_append, splitOnChar, splitOnChar_of_not_mem sep b hb]
    simp
  | cons c rest ih =>
    have hc : ¬(c = sep) := fun e => ha (e ▸ List.mem_cons_self c rest)
    rw [List.cons_append, splitOnChar, ih (fun hy => ha (List.mem_cons_of_mem c hy))]
    simp [hc]

theorem printedLines_append (a b : List Effect) :
    printedLines (a ++ b) = printedLines a ++ printedLines b := by
  induction a with
  | nil => rfl
  | cons e rest ih => cases e <;> simp [printedLines, ih]

theorem printedLines_reads (packages : List PkgFile) :
    printedLines (packages.map (fun p => Effect.readPackage p.path)) = [] := by
  induction packages with
  | nil => rfl
  | cons p rest ih => simp [printedLines, ih]

theorem printedLines_mlTrace (force : Bool) (packages : List PkgFile) :
    printedLines (mlTrace force packages) =
      (packages.filter (fun p => !p.modularitylabel)).map (fun p => warnLine force p.path) := by
  induction packages with
  | nil => rfl
  | cons p rest ih =>
    have hcons : mlTrace force (p :: rest) =
        (if p.modularitylabel then [Effect.readPackage p.path]
          else [Effect.readPackage p.path, Effect.printOut (warnLine force p.path)])
          ++ mlTrace force rest := by
      simp [mlTrace]
    rw [hcons]
    by_cases hl : p.modularitylabel <;>
      simp [printedLines_append, printedLines, hl, List.filter_cons, ih]

theorem collectLicensesT_readable (packages : List PkgFile)
    (h : ∀ p ∈ packages, p.readable = true) :
    collectLicensesT packages =
      (packages.map (fun p => Effect.readPackage p.path),
        Except.ok ((packages.map (fun p => p.license)).toFinset)) := by
  induction packages with
  | nil => simp [collectLicensesT]
  | cons p rest ih =>
    have hp := h p (List.mem_cons_self p rest)
    have ih2 := ih (fun q hq => h q (List.mem_cons_of_mem p hq))
    simp [collectLicensesT, hp, ih2]

theorem modularityLoopT_readable (force : Bool) (packages : List PkgFile)
    (h : ∀ p ∈ packages, p.readable = true) :
    modularityLoopT force packages =
      (mlTrace force packages,
        Except.ok (packages.filter (fun p => !p.modularitylabel))) := by
  induction packages with
  | nil => simp [modularityLoopT, mlTrace]
  | cons p rest ih =>
    have hp := h p (List.mem_cons_self p rest)
    have ih2 := ih (fun q hq => h q (List.mem_cons_of_mem p hq))
    have hcons : mlTrace force (p :: rest) =
        (if p.modularitylabel then [Effect.readPackage p.path]
          else [Effect.readPackage p.path, Effect.printOut (warnLine force p.path)])
          ++ mlTrace force rest := by
      simp [mlTrace]
    by_cases hl : p.modularitylabel <;>
      simp [modularityLoopT, hp, ih2, hcons, hl, List.filter_cons]

theorem package2nevra_some (q : List Char)
    (hend : endsWithList rpmSuffix (basename q) = true)
    (hparse : (parseNevra (basename q)).isSome = true) :
    ∃ r, package2nevra q = Except.ok (some r) := by
  unfold package2nevra
  simp only [hend, if_true]
  rcases hp : parseNevra (basename q) with _ | nevra
  · rw [hp] at hparse
    cases hparse
  · exact ⟨renderNevra nevra, by simp [nevraPossibilities, hp]⟩

theorem package_nevras_all_some (paths : List (List Char))
    (h : ∀ q ∈ paths, endsWithList rpmSuffix (basename q) = true
      ∧ (parseNevra (basename q)).isSome = true) :
    ∃ A, package_nevras paths = Except.ok A ∧ none ∉ A := by
  induction paths with
  | nil => exact ⟨∅, rfl, by simp⟩
  | cons q rest ih =>
    obtain ⟨hend, hparse⟩ := h q (List.mem_cons_self q rest)
    obtain ⟨r, hr⟩ := package2nevra_some q hend hparse
    obtain ⟨A, hA, hnone⟩ := ih (fun x hx => h x (List.mem_cons_of_mem q hx))
    refine ⟨insert (some r) A, ?_, ?_⟩
    · rw [package_nevras, hr, hA]
    · simp [Finset.mem_insert, hnone]

theorem dumps_ok (m : Module)
    (hv : 0 ≤ m.version ∧ m.version < 18446744073709551616)
    (h : ∀ q ∈ m.packages, endsWithList rpmSuffix (basename q) = true
      ∧ (parseNevra (basename q)).isSome = true) :
    ∃ doc, m.dumps = Except.ok doc := by
  have hvneg : ¬(m.version < 0 ∨ 18446744073709551616 ≤ m.version) := by omega
  obtain ⟨A, hA, hnone⟩ := package_nevras_all_some m.packages h
  refine ⟨⟨m.name, m.stream, m.version, m.context, m.arch, m.summary, m.description,
    m.module_license, m.licenses, A, m.requires⟩, ?_⟩
  unfold Module.dumps
  rw [if_neg hvneg, hA]
  dsimp only
  rw [if_neg hnone]

theorem noWrite_collect (packages : List PkgFile) (fname content : List Char) :
    Effect.writeFile fname content ∉ (collectLicensesT packages).1 := by
  induction packages with
  | nil => simp [collectLicensesT]
  | cons p rest ih =>
    by_cases hp : p.readable
    · rcases hrec : collectLicensesT rest with ⟨es, r⟩
      rw [hrec] at ih
      rcases r with e | s <;> simp [collectLicensesT, hp, hrec] <;> simpa using ih
    · simp [collectLicensesT, hp]

theorem noWrite_ml (force : Bool) (packages : List PkgFile) (fname content : List Char) :
    Effect.writeFile fname content ∉ (modularityLoopT force packages).1 := by
  induction packages with
  | nil => simp [modularityLoopT]
  | cons p rest ih =>
    by_cases hp : p.readable
    · by_cases hl : p.modularitylabel <;>
        simp [modularityLoopT, hp, hl] <;> simpa using ih
    · simp [modularityLoopT, hp]

theorem parse_nsvca_eq (nsvca : List Char) :
    parse_nsvca nsvca =
      (if (splitOnChar ':' nsvca).length = 5 then
        match pyInt? ((splitOnChar ':' nsvca).getD 2 []) with
        | some v =>
          Except.ok ((splitOnChar ':' nsvca).getD 0 [], (splitOnChar ':' nsvca).getD 1 [], v,
            (splitOnChar ':' nsvca).getD 3 [], (splitOnChar ':' nsvca).getD 4 [])
        | none => Except.error (PyErr.valueError (intErrMsg ((splitOnChar ':' nsvca).getD 2 [])))
      else Except.error (PyErr.valueError nsvcaFormatMsg)) := rfl

theorem buildDict_error (acc : List (List Char × List Char)) (items : List (List (List Char)))
    (it : List (List Char)) (hit : it ∈ items) (hlen : it.length ≠ 2) :
    ∃ m, buildDict acc items = Except.error (PyErr.valueError m) := by
  induction items generalizing acc with
  | nil => cases hit
  | cons item rest ih =>
    rcases item with _ | ⟨k, _ | ⟨v, _ | ⟨x, xs⟩⟩⟩
    · exact ⟨_, rfl⟩
    · exact ⟨_, rfl⟩
    · have hir : it ∈ rest := by
        rcases List.mem_cons.mp hit with heq | hm
        · rw [heq] at hlen; simp at hlen
        · exact hm
      obtain ⟨m, hm⟩ := ih (dictUpdate acc k v) hir
      exact ⟨m, hm⟩
    · exact ⟨_, rfl⟩

theorem package_nevras_append (l : List (List Char)) (p : List Char) :
    package_nevras (l ++ [p]) =
      (match package_nevras l, package2nevra p with
      | .error e, _ => .error e
      | .ok _, .error e => .error e
      | .ok s, .ok n => .ok (insert n s)) := by
  induction l with
  | nil => rcases h : package2nevra p with e | n <;> simp [package_nevras, h]
  | cons q rest ih =>
    rcases h1 : package2nevra q with e1 | n1 <;>
      rcases h2 : package_nevras rest with e2 | s2 <;>
      rcases h3 : package2nevra p with e3 | n3 <;>
      simp [package_nevras, h1, h2, h3, ih, Finset.Insert.comm]

theorem package_nevras_mem (l : List (List Char)) (s : Finset (Option (List Char)))
    (hs : package_nevras l = Except.ok s) (p : List Char) (hp : p ∈ l) :
    ∃ n, package2nevra p = Except.ok n ∧ n ∈ s := by
  induction l generalizing s with
  | nil => cases hp
  | cons q rest ih =>
    rcases h1 : package2nevra q with e1 | n1 <;>
      rcases h2 : package_nevras rest with e2 | s2 <;>
      rw [package_nevras, h1, h2] at hs <;> simp at hs
    rcases List.mem_cons.mp hp with heq | hm
    · exact ⟨n1, heq ▸ h1, hs ▸ Finset.mem_insert_self n1 s2⟩
    · obtain ⟨n, hn, hns⟩ := ih s2 h2 hm
      exact ⟨n, hn, hs ▸ Finset.mem_insert_of_mem hns⟩

theorem package_nevras_dup (l : List (List Char)) (p : List Char) (hp : p ∈ l) :
    package_nevras (l ++ [p]) = package_nevras l := by
  rw [package_nevras_append]
  rcases h : package_nevras l with e | s
  · rfl
  · obtain ⟨n, hn, hns⟩ := package_nevras_mem l s h p hp
    rw [hn]
    simp [Finset.insert_eq_self.mpr hns]

theorem collectLicensesT_snd (l : List PkgFile) : (collectLicensesT l).2 = licExcept l := by
  induction l with
  | nil => rfl
  | cons p rest ih =>
    by_cases hp : p.readable
    · rcases hrec : collectLicensesT rest with ⟨es, r⟩
      rw [hrec] at ih
      rcases r with e | s <;> simp [collectLicensesT, licExcept, hp, hrec, ← ih]
    · simp [collectLicensesT, licExcept, hp]

theorem licExcept_append (l : List PkgFile) (p : PkgFile) :
    licExcept (l ++ [p]) =
      (match licExcept l, (if p.readable then Except.ok p.license
        else Except.error (PyErr.osError (openErrMsg p.path)) : Except PyErr (List Char)) with
      | .error e, _ => .error e
      | .ok _, .error e => .error e
      | .ok s, .ok c => .ok (insert c s)) := by
  induction l with
  | nil => by_cases hp : p.readable <;> simp [licExcept, hp]
  | cons q rest ih =>
    by_cases hq : q.readable <;> by_cases hp : p.readable <;>
      rcases h2 : licExcept rest with e2 | s2 <;>
      simp [licExcept, hq, hp, h2, ih, Finset.Insert.comm]

theorem licExcept_mem (l : List PkgFile) (s : Finset (List Char))
    (hs : licExcept l = Except.ok s) (p : PkgFile) (hp : p ∈ l) :
    p.readable = true ∧ p.license ∈ s := by
  induction l generalizing s with
  | nil => cases hp
  | cons q rest ih =>
    by_cases hq : q.readable <;>
      rcases h2 : licExcept rest with e2 | s2 <;>
      rw [licExcept, h2] at hs <;> simp [hq] at hs
    rcases List.mem_cons.mp hp with heq | hm
    · exact ⟨heq ▸ hq, hs ▸ (heq ▸ Finset.mem_insert_self q.license s2)⟩
    · obtain ⟨hr, hmem⟩ := ih s2 h2 hm
      exact ⟨hr, hs ▸ Finset.mem_insert_of_mem hmem⟩

theorem licExcept_dup (l : List PkgFile) (p : PkgFile) (hp : p ∈ l) :
    licExcept (l ++ [p]) = licExcept l := by
  rw [licExcept_append]
  rcases h : licExcept l with e | s
  · rfl
  · obtain ⟨hr, hmem⟩ := licExcept_mem l s h p hp
    rw [if_pos hr]
    simp [Finset.insert_eq_self.mpr hmem]

theorem package_names_dup (l : List (List Char)) (q : List Char) (hq : q ∈ l) :
    package_names (l ++ [q]) = package_names l := by
  unfold package_names
  rw [List.flatMap_append, List.toFinset_append]
  apply Finset.union_eq_left.mpr
  intro x hx
  rw [List.mem_toFinset] at hx ⊢
  simp only [List.flatMap_cons, List.flatMap_nil, List.append_nil] at hx
  exact List.mem_flatMap.mpr ⟨q, hq, hx⟩

theorem offenders_iff (packages : List PkgFile) :
    packages.filter (fun p => !p.modularitylabel) ≠ [] ↔
      ∃ p ∈ packages, p.modularitylabel = false := by
  rw [Ne, List.filter_eq_nil_iff]
  simp

theorem runMain_eq (serialize : ModuleDoc → List Char) (args : Args) (packages : List PkgFile)
    (nm st : List Char) (ver : Int) (ctx ar : List Char) (deps : List (List Char × List Char))
    (hn : parse_nsvca args.nsvca = Except.ok (nm, st, ver, ctx, ar))
    (hd : parse_dependencies args.requires = Except.ok deps) :
    runMain serialize args packages =
      runAfterParse serialize args packages nm st ver ctx ar deps := by
  unfold runMain
  rw [hn, hd]

theorem runAfterParse_readable (serialize : ModuleDoc → List Char) (args : Args)
    (packages : List PkgFile) (nm st : List Char) (ver : Int) (ctx ar : List Char)
    (deps : List (List Char × List Char))
    (hv : 0 ≤ ver ∧ ver < 18446744073709551616)
    (hr : ∀ p ∈ packages, p.readable = true)
    (he : ∀ p ∈ packages, endsWithList rpmSuffix (basename p.path) = true
      ∧ (parseNevra (basename p.path)).isSome = true) :
    ∃ doc,
      runAfterParse serialize args packages nm st ver ctx ar deps =
        if packages.filter (fun p => !p.modularitylabel) ≠ [] ∧ args.force = false then
          (packages.map (fun p => Effect.readPackage p.path) ++ mlTrace args.force packages,
            Except.error (PyErr.runtimeError forceMsg))
        else
          (packages.map (fun p => Effect.readPackage p.path) ++ mlTrace args.force packages
            ++ [Effect.printOut (serialize doc)], Except.ok ()) := by
  obtain ⟨doc, hdoc⟩ := dumps_ok (Module.mk nm st ver ctx ar args.summary
    (descriptionOf args.description) args.license
    ((packages.map (fun p => p.license)).toFinset) (packages.map (fun p => p.path)) deps)
    hv
    (by
      intro q hq
      obtain ⟨p, hp, hqe⟩ := List.mem_map.mp hq
      exact hqe ▸ he p hp)
  refine ⟨doc, ?_⟩
  unfold runAfterParse
  rw [collectLicensesT_readable packages hr, modularityLoopT_readable args.force packages hr]
  by_cases hcond : packages.filter (fun p => !p.modularitylabel) ≠ [] ∧ args.force = false
  · rw [if_pos hcond]
    simp [hcond]
  · rw [if_neg hcond]
    simp only [hdoc]
    simp [hcond]
    intro x hx hlabel
    cases hf : args.force with
    | true => rfl
    | false =>
      exact absurd ⟨(offenders_iff packages).mpr ⟨x, hx, hlabel⟩, hf⟩ hcond

/-! ## Claims -/

/-- C1: for every package set and force flag (with well-formed arguments,
a version inside the serializer's unsigned 64-bit range, and readable
packages whose rpm-named files decompose under the naming grammar, so
that neither an I/O fault nor a serializer rejection - the OverflowError
on an out-of-range version or the TypeError on a `None` artifact -
intervenes), the run fails fatally if and only if at least one package
lacks the modularity marker and the force flag is false; the offender
list computed by the loop is exactly the packages whose marker is false;
and in that failure the only printed lines are the per-offender reports -
no document line is emitted. -/
theorem c1_validation_gate (serialize : ModuleDoc → List Char) (args : Args)
    (packages : List PkgFile) (nm st : List Char) (ver : Int) (ctx ar : List Char)
    (deps : List (List Char × List Char))
    (hn : parse_nsvca args.nsvca = Except.ok (nm, st, ver, ctx, ar))
    (hd : parse_dependencies args.requires = Except.ok deps)
    (hv : 0 ≤ ver ∧ ver < 18446744073709551616)
    (hr : ∀ p ∈ packages, p.readable = true)
    (he : ∀ p ∈ packages, endsWithList rpmSuffix (basename p.path) = true
      ∧ (parseNevra (basename p.path)).isSome = true) :
    ((∃ e, (runMain serialize args packages).2 = Except.error e) ↔
      ((∃ p ∈ packages, p.modularitylabel = false) ∧ args.force = false))
    ∧ (modularityLoopT args.force packages).2 =
        Except.ok (packages.filter (fun p => !p.modularitylabel))
    ∧ (∀ e, (runMain serialize args packages).2 = Except.error e →
        printedLines (runMain serialize args packages).1 =
          (packages.filter (fun p => !p.modularitylabel)).map
            (fun p => warnLine args.force p.path)) := by
  obtain ⟨doc, hra⟩ :=
    runAfterParse_readable serialize args packages nm st ver ctx ar deps hv hr he
  have hrm := runMain_eq serialize args packages nm st ver ctx ar deps hn hd
  rw [hrm, hra]
  refine ⟨?_, ?_, ?_⟩
  · by_cases hcond : packages.filter (fun p => !p.modularitylabel) ≠ [] ∧ args.force = false
    · rw [if_pos hcond]
      constructor
      · intro _
        exact ⟨(offenders_iff packages).mp hcond.1, hcond.2⟩
      · intro _
        exact ⟨PyErr.runtimeError forceMsg, rfl⟩
    · rw [if_neg hcond]
      constructor
      · rintro ⟨e, he2⟩
        cases he2
      · rintro ⟨hex, hf⟩
        exact absurd ⟨(offenders_iff packages).mpr hex, hf⟩ hcond
  · rw [modularityLoopT_readable args.force packages hr]
  · by_cases hcond : packages.filter (fun p => !p.modularitylabel) ≠ [] ∧ args.force = false
    · rw [if_pos hcond]
      intro e _
      simp [printedLines_append, printedLines_reads, printedLines_mlTrace]
    · rw [if_neg hcond]
      intro e he2
      cases he2

/-- C1 witness: with one labelled and one unlabelled readable package and
no `--force`, the run fails. -/
theorem c1_validation_gate_witness :
    ∃ e, (runMain (fun _ => []) argsDemo [pkgLabeled, pkgUnlabeled]).2 = Except.error e :=
  (c1_validation_gate (fun _ => []) argsDemo [pkgLabeled, pkgUnlabeled]
    ("mymod".data) ("main".data) 10 ("ctx".data) ("x86_64".data)
    [("platform".data, "el9".data)] (by decide) (by decide)
    (by decide) (by decide) (by decide)).1.mpr (by decide)

/-- C2: the claim predicts that resolving a grammar-valid filename
`NAME-VERSION-RELEASE.ARCH.rpm` strips the extension and reproduces the
original components, rendering `foo-0:1.0-1.x86_64` for the input
`foo-1.0-1.x86_64.rpm`.  The code feeds the full basename (extension
included) to the matcher, so the architecture resolves to `rpm`, the
release to `1.x86_64`, and the rendering keeps the `.rpm` tail. -/
theorem c2_no_strip_eval :
    parseNevra ("foo-1.0-1.x86_64.rpm".data) =
      some ⟨"foo".data, none, "1.0".data, "1.x86_64".data, "rpm".data⟩
    ∧ package2nevra ("foo-1.0-1.x86_64.rpm".data) =
        Except.ok (some ("foo-0:1.0-1.x86_64.rpm".data))
    ∧ package2nevra ("foo-1.0-1.x86_64.rpm".data) ≠
        Except.ok (some ("foo-0:1.0-1.x86_64".data)) := by
  refine ⟨by decide, by decide, by decide⟩

/-- C3: on a filename that ends with the package extension but admits no
decomposition under the naming grammar (no hyphen-separated fields at
all), `package2nevra` does not raise: it falls off its loop and returns
`None`, a silent non-identity result, where the claim requires a fatal
MalformedIdentity failure.  On a missing extension it does raise
ValueError. -/
theorem c3_silent_none_eval :
    package2nevra ("foo.rpm".data) = Except.ok none
    ∧ package2nevra ("foo.txt".data) =
        Except.error (PyErr.valueError (rpmErrMsg ("foo.txt".data))) := by
  refine ⟨by decide, by decide⟩

/-- C4: with the force flag set (and well-formed arguments, a version
inside the serializer's unsigned 64-bit range, and readable packages
whose rpm-named files decompose under the naming grammar, so that
neither an I/O fault nor a serializer rejection intervenes after the
gate), the run does not fail and the printed lines are exactly one
report line per offending package followed by the serialized
document. -/
theorem c4_force_override (serialize : ModuleDoc → List Char) (args : Args)
    (packages : List PkgFile) (nm st : List Char) (ver : Int) (ctx ar : List Char)
    (deps : List (List Char × List Char))
    (hn : parse_nsvca args.nsvca = Except.ok (nm, st, ver, ctx, ar))
    (hd : parse_dependencies args.requires = Except.ok deps)
    (hv : 0 ≤ ver ∧ ver < 18446744073709551616)
    (hr : ∀ p ∈ packages, p.readable = true)
    (he : ∀ p ∈ packages, endsWithList rpmSuffix (basename p.path) = true
      ∧ (parseNevra (basename p.path)).isSome = true)
    (hf : args.force = true) :
    (runMain serialize args packages).2 = Except.ok ()
    ∧ ∃ doc, printedLines (runMain serialize args packages).1 =
        ((packages.filter (fun p => !p.modularitylabel)).map
          (fun p => warnLine args.force p.path)) ++ [serialize doc] := by
  obtain ⟨doc, hra⟩ :=
    runAfterParse_readable serialize args packages nm st ver ctx ar deps hv hr he
  have hrm := runMain_eq serialize args packages nm st ver ctx ar deps hn hd
  have hcond : ¬(packages.filter (fun p => !p.modularitylabel) ≠ [] ∧ args.force = false) := by
    rw [hf]
    simp
  rw [hrm, hra, if_neg hcond]
  refine ⟨rfl, doc, ?_⟩
  simp [printedLines_append, printedLines_reads, printedLines_mlTrace, printedLines]

/-- C4 witness: with `--force` and an unlabelled package the run
succeeds. -/
theorem c4_force_override_witness :
    (runMain (fun _ => []) argsDemoForce [pkgLabeled, pkgUnlabeled]).2 = Except.ok () :=
  (c4_force_override (fun _ => []) argsDemoForce [pkgLabeled, pkgUnlabeled]
    ("mymod".data) ("main".data) 10 ("ctx".data) ("x86_64".data)
    [("platform".data, "el9".data)] (by decide) (by decide)
    (by decide) (by decide) (by decide) (by decide)).1

/-- C6: parsing the N:S:V:C:A argument succeeds exactly when the string
splits on colons into exactly five fields and the third field is an
integer; and when it fails, `main` returns that error with an empty
effect trace - no package file has been touched. -/
theorem c6_nsvca_gate (serialize : ModuleDoc → List Char) (args : Args)
    (packages : List PkgFile) :
    (∀ e, parse_nsvca args.nsvca = Except.error e →
      runMain serialize args packages = ([], Except.error e))
    ∧ ((∃ t, parse_nsvca args.nsvca = Except.ok t) ↔
        ((splitOnChar ':' args.nsvca).length = 5
          ∧ (pyInt? ((splitOnChar ':' args.nsvca).getD 2 [])).isSome = true)) := by
  constructor
  · intro e h
    unfold runMain
    rw [h]
  · constructor
    · rintro ⟨t, ht⟩
      rw [parse_nsvca_eq] at ht
      by_cases h5 : (splitOnChar ':' args.nsvca).length = 5
      · rcases hint : pyInt? ((splitOnChar ':' args.nsvca).getD 2 []) with _ | v
        · rw [if_pos h5, hint] at ht
          cases ht
        · exact ⟨h5, rfl⟩
      · rw [if_neg h5] at ht
        cases ht
    · rintro ⟨h5, hint⟩
      rcases hv : pyInt? ((splitOnChar ':' args.nsvca).getD 2 []) with _ | v
      · rw [hv] at hint
        cases hint
      · exact ⟨_, by rw [parse_nsvca_eq, if_pos h5, hv]⟩

/-- C6 witness: a two-field N:S:V:C:A argument makes `main` fail before
any effect. -/
theorem c6_nsvca_gate_witness :
    runMain (fun _ => []) argsBadNsvca [pkgLabeled] =
      ([], Except.error (PyErr.valueError nsvcaFormatMsg)) :=
  (c6_nsvca_gate (fun _ => []) argsBadNsvca [pkgLabeled]).1
    (PyErr.valueError nsvcaFormatMsg) (by decide)

/-- C7: the dependency argument `platform:el9` parses to the mapping
entry `platform -> el9`; an argument that does not split on colons into
exactly two fields makes parsing fail with a ValueError; and a duplicate
dependency name silently overwrites the earlier entry - last write
wins. -/
theorem c7_dependency_parsing (k v w d : List Char) (deps : List (List Char))
    (hk : ':' ∉ k) (hv : ':' ∉ v) (hw : ':' ∉ w)
    (hd : d ∈ deps) (hlen : (splitOnChar ':' d).length ≠ 2) :
    parse_dependencies (some [("platform:el9".data)]) =
      Except.ok [("platform".data, "el9".data)]
    ∧ (∃ m, parse_dependencies (some deps) = Except.error (PyErr.valueError m))
    ∧ parse_dependencies (some [k ++ ':' :: v, k ++ ':' :: w]) = Except.ok [(k, w)] := by
  refine ⟨by decide, ?_, ?_⟩
  · have hmem : splitOnChar ':' d ∈ deps.map (fun dep => splitOnChar ':' dep) :=
      List.mem_map_of_mem _ hd
    obtain ⟨m, hm⟩ := buildDict_error [] _ _ hmem hlen
    exact ⟨m, hm⟩
  · have h1 : splitOnChar ':' (k ++ ':' :: v) = [k, v] := splitOnChar_pair ':' k v hk hv
    have h2 : splitOnChar ':' (k ++ ':' :: w) = [k, w] := splitOnChar_pair ':' k w hk hw
    simp [parse_dependencies, h1, h2, buildDict, dictUpdate]

/-- C7 witness: concrete instances of all three dependency-parsing
facts. -/
theorem c7_dependency_parsing_witness :
    parse_dependencies (some [("platform:el9".data)]) =
      Except.ok [("platform".data, "el9".data)]
    ∧ (∃ m, parse_dependencies (some [("bad".data)]) =
        Except.error (PyErr.valueError m))
    ∧ parse_dependencies (some [("k".data) ++ ':' :: ("1".data),
        ("k".data) ++ ':' :: ("2".data)]) = Except.ok [(("k".data), ("2".data))] :=
  c7_dependency_parsing ("k".data) ("1".data) ("2".data) ("bad".data) [("bad".data)]
    (by decide) (by decide) (by decide) (by decide) (by decide)

/-- C8: the generated output filename is the colon-separated N:S:V:C:A
token sequence followed by the fixed suffix `.modulemd.yaml`, and on the
concrete descriptor of the claim it is exactly
`foo:1.0:202401010000:abcdef:x86_64.modulemd.yaml`. -/
theorem c8_filename (m : Module) :
    m.filename = m.name ++ (':' :: m.stream) ++ (':' :: (toString m.version).data)
      ++ (':' :: m.context) ++ (':' :: m.arch) ++ ".modulemd.yaml".data
    ∧ Module.filename ⟨"foo".data, "1.0".data, 202401010000, "abcdef".data, "x86_64".data,
        "s".data, "d".data, "MIT".data, ∅, [], []⟩ =
      "foo:1.0:202401010000:abcdef:x86_64.modulemd.yaml".data := by
  refine ⟨rfl, by decide⟩

/-- C9: aggregating the same package a second time changes nothing: the
license set, the package-name set and the artifact-identity set are the
same as for a single occurrence, and so is the whole document object the
serializer receives. -/
theorem c9_duplicate_idempotent (packages : List PkgFile) (p : PkgFile)
    (hp : p ∈ packages) (nm st : List Char) (ver : Int)
    (ctx ar su de ml : List Char) (requires : List (List Char × List Char)) :
    (collectLicensesT (packages ++ [p])).2 = (collectLicensesT packages).2
    ∧ package_names ((packages ++ [p]).map (fun q => q.path)) =
        package_names (packages.map (fun q => q.path))
    ∧ package_nevras ((packages ++ [p]).map (fun q => q.path)) =
        package_nevras (packages.map (fun q => q.path))
    ∧ (∀ licenses : Finset (List Char),
        Module.dumps ⟨nm, st, ver, ctx, ar, su, de, ml, licenses,
          (packages ++ [p]).map (fun q => q.path), requires⟩ =
        Module.dumps ⟨nm, st, ver, ctx, ar, su, de, ml, licenses,
          packages.map (fun q => q.path), requires⟩) := by
  have hpath : p.path ∈ packages.map (fun q => q.path) := List.mem_map_of_mem _ hp
  have hnev : package_nevras ((packages ++ [p]).map (fun q => q.path)) =
      package_nevras (packages.map (fun q => q.path)) := by
    rw [List.map_append]
    exact package_nevras_dup _ _ hpath
  refine ⟨?_, ?_, hnev, ?_⟩
  · rw [collectLicensesT_snd, collectLicensesT_snd]
    exact licExcept_dup packages p hp
  · rw [List.map_append]
    exact package_names_dup _ _ hpath
  · intro licenses
    simp only [Module.dumps]
    rw [hnev]

/-- C9 witness: duplicating the single package of a one-package set
leaves the license outcome unchanged. -/
theorem c9_duplicate_idempotent_witness :
    (collectLicensesT ([pkgLabeled] ++ [pkgLabeled])).2 =
      (collectLicensesT [pkgLabeled]).2 :=
  (c9_duplicate_idempotent [pkgLabeled] pkgLabeled (by decide)
    ("n".data) ("s".data) 1 ("c".data) ("a".data) ("su".data) ("de".data)
    ("MIT".data) []).1

/-- C10: no run of `main` ever emits a file-write effect - on success the
serialized document goes to standard output as the last effect - while
the `Module.dump` operation, which does write the file named by
`Module.filename`, exists but is never invoked by `main`. -/
theorem c10_no_file_write (serialize : ModuleDoc → List Char) (args : Args)
    (packages : List PkgFile) :
    (∀ fname content, Effect.writeFile fname content ∉ (runMain serialize args packages).1)
    ∧ ((runMain serialize args packages).2 = Except.ok () →
        ∃ doc es, (runMain serialize args packages).1 = es ++ [Effect.printOut (serialize doc)])
    ∧ (∀ (m : Module) (doc : ModuleDoc), m.dumps = Except.ok doc →
        Module.dump serialize m =
          ([Effect.writeFile m.filename (serialize doc)], Except.ok ())) := by
  have hafter : ∀ nm st ver ctx ar deps,
      (∀ fname content, Effect.writeFile fname content ∉
        (runAfterParse serialize args packages nm st ver ctx ar deps).1)
      ∧ ((runAfterParse serialize args packages nm st ver ctx ar deps).2 = Except.ok () →
          ∃ doc es, (runAfterParse serialize args packages nm st ver ctx ar deps).1 =
            es ++ [Effect.printOut (serialize doc)]) := by
    intro nm st ver ctx ar deps
    unfold runAfterParse
    rcases hclt : collectLicensesT packages with ⟨es1, r1⟩
    have hw1 : ∀ fname content, Effect.writeFile fname content ∉ es1 := by
      intro fname content
      have := noWrite_collect packages fname content
      rw [hclt] at this
      exact this
    rcases r1 with e1 | licenses
    · refine ⟨fun fname content => hw1 fname content, ?_⟩
      intro h
      cases h
    · rcases hml : modularityLoopT args.force packages with ⟨es2, r2⟩
      have hw2 : ∀ fname content, Effect.writeFile fname content ∉ es2 := by
        intro fname content
        have := noWrite_ml args.force packages fname content
        rw [hml] at this
        exact this
      rcases r2 with e2 | missing
      · refine ⟨?_, ?_⟩
        · intro fname content hmem
          rcases List.mem_append.mp hmem with hmem | hmem
          · exact hw1 fname content hmem
          · exact hw2 fname content hmem
        · intro h
          cases h
      · dsimp only
        by_cases hcond : missing ≠ [] ∧ args.force = false
        · rw [if_pos hcond]
          refine ⟨?_, ?_⟩
          · intro fname content hmem
            rcases List.mem_append.mp hmem with hmem | hmem
            · exact hw1 fname content hmem
            · exact hw2 fname content hmem
          · intro h
            cases h
        · rw [if_neg hcond]
          rcases hdmp : (Module.mk nm st ver ctx ar args.summary
            (descriptionOf args.description) args.license licenses
            (packages.map (fun p => p.path)) deps).dumps with e3 | doc
          · rw [hdmp]
            dsimp only
            refine ⟨?_, ?_⟩
            · intro fname content hmem
              rcases List.mem_append.mp hmem with hmem | hmem
              · exact hw1 fname content hmem
              · exact hw2 fname content hmem
            · intro h
              cases h
          · rw [hdmp]
            dsimp only
            refine ⟨?_, ?_⟩
            · intro fname content hmem
              rcases List.mem_append.mp hmem with hmem | hmem
              · rcases List.mem_append.mp hmem with hmem | hmem
                · exact hw1 fname content hmem
                · exact hw2 fname content hmem
              · simp at hmem
            · intro _
              exact ⟨doc, es1 ++ es2, rfl⟩
  refine ⟨?_, ?_, ?_⟩
  · intro fname content
    unfold runMain
    rcases hn : parse_nsvca args.nsvca with e | t
    · simp
    · rcases t with ⟨nm, st, ver, ctx, ar⟩
      rcases hdp : parse_dependencies args.requires with e | deps
      · simp
      · exact (hafter nm st ver ctx ar deps).1 fname content
  · unfold runMain
    rcases hn : parse_nsvca args.nsvca with e | t
    · intro h
      cases h
    · rcases t with ⟨nm, st, ver, ctx, ar⟩
      rcases hdp : parse_dependencies args.requires with e | deps
      · intro h
        cases h
      · exact (hafter nm st ver ctx ar deps).2
  · intro m doc hdoc
    unfold Module.dump
    rw [hdoc]

/-- C10 witness: a concrete run emits no file-write effect. -/
theorem c10_no_file_write_witness :
    Effect.writeFile [] [] ∉ (runMain (fun _ => []) argsDemo [pkgLabeled]).1 :=
  (c10_no_file_write (fun _ => []) argsDemo [pkgLabeled]).1 [] []

end Dir2Module
